import Mathlib

/-!
# Verification of the nitrile LaTeX-generation library

Shallow embedding of `src/nitrile.py`, a library that builds a tree of typed
nodes (Document, Content, T, Text, LineBreak, Group, Environment, Command,
Switch, DQuote, Comment) and renders it to LaTeX source text.

Two models are developed, matching the two aspects the claims address:

* an inductive **tree model** (`Nitrile.Node`) for the rendering methods
  (`start`, `content`, `end`, `__str__`, `insert_space`).  Rendering in the
  source consults `self.parent` only through
  `Command.insert_space -> parent.next_sibling(self)`, which for a consistent
  tree (each child object occurs exactly once in its parent's child list and
  parent pointers agree with the child lists) is exactly the child that
  follows the command in its parent's child sequence; the renderer therefore
  passes each child its following sibling (`none` both when the node has no
  parent and when it is the last child — `insert_space` returns a falsy value
  in either case).  Rendering is threaded in state-passing style
  (each call returns the possibly-mutated node next to its string) so that
  absence of mutation is a provable statement rather than one true by type.
  A raised Python exception is modelled as `none` in the `Option String`
  result.

* a **heap model** (`Nitrile.State`, a list of `NodeData` indexed by node id)
  for the structural operations `__iadd__`, `__add__` and `__getattr__`,
  where object identity, shared children and parent pointers matter.
-/

namespace Nitrile

/-- Python exception classes raised (or relevant) in `nitrile.py`.
In CPython, `KeyError` and `IndexError` are the subclasses of
`LookupError`; `ValueError` is not. -/
inductive PyErr where
  | keyError
  | indexError
  | valueError
  | attributeError
deriving DecidableEq, Repr

/-- Whether the exception is of `LookupError` kind (CPython class hierarchy:
`LookupError` = `KeyError` ∪ `IndexError`). -/
def PyErr.isLookupError : PyErr → Bool
  | .keyError => true
  | .indexError => true
  | _ => false

mutual

/-- Tree model of the node classes of `nitrile.py`.  Every class inherits
`children` from `_Node.__init__`; variant payloads follow each class's own
`__init__`.  `name` fields that Python may leave as `None`
(`Command(None)`, `Environment(None)`, `Group()`) are `Option String`. -/
inductive Node where
  | Document (children : List Node)
  | Content (children : List Node)
  | T (txt : String) (children : List Node)
  | Text (txt : String) (children : List Node)
  | LineBreak (children : List Node)
  | Group (name : Option String) (children : List Node)
  | Environment (name : Option String) (rest : List String) (children : List Node)
  | Command (name : Option String) (arguments : Arg) (options : Option (List String))
      (add_newline : Bool) (children : List Node)
  | Switch (name : String) (children : List Node)
  | DQuote (txt : String) (children : List Node)
  | Comment (txt : String) (children : List Node)

/-- The shape of `Command.arguments`, classified in `Command.__init__`:
`None`, a string (flag `str_type`, stored as the singleton list
`[arguments]`), a list of strings (flag `list_type`), or a `_Node`
subtree. -/
inductive Arg where
  | argNone
  | argStr (s : String)
  | argList (xs : List String)
  | argNode (n : Node)

end

/-- Python `str(x)` for an optional string, with `str(None) = "None"`
(the source formats `self.name` without checking for `None`). -/
def pyStrOpt : Option String → String
  | some s => s
  | none => "None"

/-- Python truthiness of an optional string (`None` and `''` are falsy),
as used by `Group.start` / `Group.end` (`if self.name`). -/
def optTruthy : Option String → Bool
  | some s => !s.isEmpty
  | none => false

/-- `Group.start`: `u'{0}\n'.format('\\begin'+self.name if self.name else "\x7b")`. -/
def groupStart (name : Option String) : String :=
  (if optTruthy name then "\\begin" ++ name.getD "" else "\x7b") ++ "\n"

/-- `Group.end`: `u'\n{0}\n'.format('\\end'+self.name if self.name else "\x7b")`.
Note the source's anonymous branch yields `"\x7b"` (an **opening** brace),
exactly as written in the code. -/
def groupEnd (name : Option String) : String :=
  "\n" ++ (if optTruthy name then "\\end" ++ name.getD "" else "\x7b") ++ "\n"

/-- `Environment.start`:
`u'\\begin{{{0}}}{1}\n'.format(self.name, ''.join('{{{0}}}'.format(x) for x in self.rest))`. -/
def envStart (name : Option String) (rest : List String) : String :=
  "\\begin\x7b" ++ pyStrOpt name ++ "\x7d"
    ++ String.join (rest.map (fun x => "\x7b" ++ x ++ "\x7d")) ++ "\n"

/-- `Environment.end`: `u'\n\\end{{{0}}}\n'.format(self.name)`. -/
def envEnd (name : Option String) : String :=
  "\n\\end\x7b" ++ pyStrOpt name ++ "\x7d\n"

/-- The options block of `Command.start`:
`'[{0}]'.format(','.join(self.options)) if self.options else ''`
(`self.options` is falsy when `None` or the empty list). -/
def optBlock : Option (List String) → String
  | some (o :: os) => "[" ++ String.intercalate "," (o :: os) ++ "]"
  | _ => ""

/-- `isinstance(sib, T)` on an optional sibling: `Command.insert_space`
returns `sib and isinstance(sib, T)`, which is truthy iff the sibling
exists and is a `T` instance.  `Text` is a direct subclass of `_Node`,
not of `T`, so a `Text` sibling does **not** satisfy the test.  The
`none` case also covers `self.parent` being `None` (then `insert_space`
falls through returning `None`, falsy). -/
def insert_space : Option Node → Bool
  | some (Node.T _ _) => true
  | _ => false

/-- `Command.start` assembled from its pieces: `u'\{0}{1}{2}{3}{4}'.format(
self.name, one, two, '\x7b\x7d' if self.insert_space() else '',
'\n' if self.add_newline else "")`.  `two` (the rendered argument block)
is passed in because rendering a subtree argument is part of the mutual
renderer below. -/
def commandStart (name : Option String) (two : String) (opts : Option (List String))
    (ins : Bool) (nl : Bool) : String :=
  "\\" ++ pyStrOpt name ++ optBlock opts ++ two
    ++ (if ins then "\x7b\x7d" else "") ++ (if nl then "\n" else "")

/-- Convert a digit sequence to the number it denotes (for `pyFormat`
field names such as `{0}`). -/
def digitsToNat (cs : List Char) : Nat :=
  cs.foldl (fun acc c => acc * 10 + (c.toNat - 48)) 0

/-- Model of CPython's `str.format` template scanning, on the fragment the
source uses: positional digit fields `\x7b0\x7d`, doubled-brace escapes, and
the errors `Single '\x7d' encountered` / unterminated field, modelled as
`none`.  Fuel decreases once per step; each step consumes at least one
character, so `length + 1` fuel always suffices. -/
def pyFormatAux (args : List String) : Nat → List Char → Option String
  | 0, _ => none
  | _, [] => some ""
  | fuel + 1, c :: rest =>
    if c = '\x7d' then
      match rest with
      | '\x7d' :: rest2 => (pyFormatAux args fuel rest2).map (fun s => "\x7d" ++ s)
      | _ => none
    else if c = '\x7b' then
      match rest with
      | '\x7b' :: rest2 => (pyFormatAux args fuel rest2).map (fun s => "\x7b" ++ s)
      | _ =>
        let ds := rest.takeWhile Char.isDigit
        match rest.drop ds.length with
        | '\x7d' :: rest3 =>
          if ds.isEmpty then none
          else
            match args.get? (digitsToNat ds) with
            | some a => (pyFormatAux args fuel rest3).map (fun s => a ++ s)
            | none => none
        | _ => none
    else (pyFormatAux args fuel rest).map (fun s => String.singleton c ++ s)

/-- CPython `template.format(*args)` restricted as above. -/
def pyFormat (args : List String) (template : List Char) : Option String :=
  pyFormatAux args (template.length + 1) template

/-- The format template of `Switch.__str__`: the source's
`u'{0}\{{1}\}'`, i.e. the ten characters `{ 0 } \ { { 1 } \ }`
(braces written as hex escapes). -/
def switchTemplate : List Char :=
  "\x7b0\x7d\\\x7b\x7b1\x7d\\\x7d".toList

mutual

/-- State-passing renderer: `str(node)` given the node's following sibling
in its parent (`none` when there is no parent or no following sibling).
Returns the rendered string (`none` = a Python exception was raised) and
the node as it stands after rendering, so that freedom from mutation is
provable.  Per class:
* `Document.__str__` / default `_Node.__str__` with `start() = end() = ''`
  (Content): the join of the children's renderings;
* `T`, `Text`, `LineBreak`, `Comment`, `DQuote` override `content()` with
  their payload, so their children are not rendered;
* `Group`/`Environment`: `start() ++ content() ++ end()`;
* `Command`: `start()` (which renders the argument block and consults
  `insert_space`) followed by the joined children (default `content()`),
  `end() = ''`;
* `Switch.__str__`: `u'{0}\{{1}\}'.format(self.name, self.content())` —
  the children are rendered first (argument evaluation), then the
  malformed template is scanned. -/
def renderSt : Node → Option Node → Option String × Node
  | Node.Document cs, _ =>
    let r := renderChildrenSt cs
    (r.1, Node.Document r.2)
  | Node.Content cs, _ =>
    let r := renderChildrenSt cs
    (r.1, Node.Content r.2)
  | Node.T txt cs, _ => (some txt, Node.T txt cs)
  | Node.Text txt cs, _ => (some txt, Node.Text txt cs)
  | Node.LineBreak cs, _ => (some "\\\\\n", Node.LineBreak cs)
  | Node.Comment txt cs, _ => (some ("% " ++ txt ++ "\n"), Node.Comment txt cs)
  | Node.DQuote txt cs, _ => (some ("``" ++ txt ++ "\x27\x27"), Node.DQuote txt cs)
  | Node.Group name cs, _ =>
    let r := renderChildrenSt cs
    (r.1.map (fun m => groupStart name ++ m ++ groupEnd name), Node.Group name r.2)
  | Node.Environment name rest cs, _ =>
    let r := renderChildrenSt cs
    (r.1.map (fun m => envStart name rest ++ m ++ envEnd name),
     Node.Environment name rest r.2)
  | Node.Command name arg opts nl cs, sib =>
    let a := renderArgTwo arg
    match a.1 with
    | none => (none, Node.Command name a.2 opts nl cs)
    | some two =>
      let r := renderChildrenSt cs
      (r.1.map (fun m => commandStart name two opts (insert_space sib) nl ++ m),
       Node.Command name a.2 opts nl r.2)
  | Node.Switch name cs, _ =>
    let r := renderChildrenSt cs
    (match r.1 with
     | none => none
     | some m => pyFormat [name, m] switchTemplate,
     Node.Switch name r.2)

/-- The `two` component of `Command.start` (the rendered argument block),
following the source's branching on truthiness of `self.arguments` and the
`list_type` / `str_type` / subtree classification:
* `None` is falsy: empty block;
* `str_type`: arguments was stored as the singleton `[s]` (always truthy,
  even for `s = ''`), rendered `'{{{0}}}'.format(','.join(...))` = `{s}`;
* `list_type`: the empty list is falsy (empty block), otherwise each
  element gets its own `{x}` block, joined with no separator;
* a subtree argument (a `_Node` is always truthy): `{` + `str(arg)` + `}`,
  rendered with no parent context (`Command.__init__` does not set
  `arguments.parent`). -/
def renderArgTwo : Arg → Option String × Arg
  | Arg.argNone => (some "", Arg.argNone)
  | Arg.argStr s => (some ("\x7b" ++ s ++ "\x7d"), Arg.argStr s)
  | Arg.argList xs =>
    (some (if xs.isEmpty then ""
           else String.join (xs.map (fun x => "\x7b" ++ x ++ "\x7d"))),
     Arg.argList xs)
  | Arg.argNode n =>
    let r := renderSt n none
    (r.1.map (fun m => "\x7b" ++ m ++ "\x7d"), Arg.argNode r.2)

/-- `''.join(str(c) for c in self.children)`: each child is rendered with
its following sibling as context; a raised exception propagates at once
(children after the failing one are not rendered). -/
def renderChildrenSt : List Node → Option String × List Node
  | [] => (some "", [])
  | c :: rest =>
    let r1 := renderSt c rest.head?
    match r1.1 with
    | none => (none, r1.2 :: rest)
    | some s1 =>
      let r2 := renderChildrenSt rest
      (r2.1.map (fun s2 => s1 ++ s2), r1.2 :: r2.2)

end

/-- `str(node)` at top level (no parent, hence no sibling context). -/
def render (n : Node) : Option String :=
  (renderSt n none).1

/-! ## Heap model

Object identity matters for `__iadd__` / `__add__` / `__getattr__` (a node
can end up in several child lists, parent pointers are mutable aliases), so
these operations are modelled on an explicit heap: a list of `NodeData`
records indexed by node id, where `children` and `parent` hold node ids. -/

/-- The argument payload of a `Command` in the heap model; a subtree
argument is a reference to a heap node. -/
inductive HArg where
  | hNone
  | hStr (s : String)
  | hList (xs : List String)
  | hNode (i : Nat)
deriving DecidableEq, Repr

/-- Class tag and per-class payload of a heap node. -/
inductive NKind where
  | documentK
  | contentK
  | tK (txt : String)
  | textK (txt : String)
  | lineBreakK
  | groupK (name : Option String)
  | environmentK (name : Option String) (rest : List String)
  | commandK (name : Option String) (arguments : HArg) (options : Option (List String))
      (add_newline : Bool)
  | switchK (name : String)
  | dquoteK (txt : String)
  | commentK (txt : String)
deriving DecidableEq, Repr

/-- One Python object: the fields set by `_Node.__init__`
(`self.children = []`, `self.parent = None`) plus the class payload. -/
structure NodeData where
  kind : NKind
  children : List Nat
  parent : Option Nat
deriving DecidableEq, Repr

/-- The heap: node id `i` denotes `s.get? i`.  New objects are allocated
at the end, so `s.length` is the next fresh id. -/
abbrev State := List NodeData

/-- The child-id sequence of node `i` (empty for a dangling id). -/
def childrenAt (s : State) (i : Nat) : List Nat :=
  match s[i]? with
  | some nd => nd.children
  | none => []

/-- The parent pointer of node `i` (`none` for a dangling id). -/
def parentAt (s : State) (i : Nat) : Option Nat :=
  match s[i]? with
  | some nd => nd.parent
  | none => none

/-- The class tag of node `i`. -/
def kindAt (s : State) (i : Nat) : Option NKind :=
  s[i]?.map (·.kind)

/-- In-place update of the record at index `n` (identity when `n` is out
of range) — the heap picture of a Python attribute assignment. -/
def modifyIdx (f : NodeData → NodeData) : Nat → State → State
  | _, [] => []
  | 0, x :: xs => f x :: xs
  | n + 1, x :: xs => x :: modifyIdx f n xs

/-- The id the appended child ends up with: the child itself for a node,
the freshly allocated `T` wrapper (next fresh id) for a string. -/
def resolvedChild (s : State) : Nat ⊕ String → Nat
  | Sum.inl i => i
  | Sum.inr _ => s.length

/-- `_Node.__iadd__(self, other)`: a plain string is first wrapped as
`T(other)` (a fresh heap node); then `self.children.append(other)`,
`other.parent = self`, `return self`. -/
def iadd (s : State) (selfId : Nat) (other : Nat ⊕ String) : State × Nat :=
  match other with
  | Sum.inl childId =>
    let s1 := modifyIdx (fun nd => { nd with children := nd.children ++ [childId] }) selfId s
    let s2 := modifyIdx (fun nd => { nd with parent := some selfId }) childId s1
    (s2, selfId)
  | Sum.inr txt =>
    let childId := s.length
    let s0 := s ++ [⟨NKind.tK txt, [], none⟩]
    let s1 := modifyIdx (fun nd => { nd with children := nd.children ++ [childId] }) selfId s0
    let s2 := modifyIdx (fun nd => { nd with parent := some selfId }) childId s1
    (s2, selfId)

/-- `_Node.__add__(self, other)`: textually the same body as `__iadd__`
(append, set parent, `return self`). -/
def add (s : State) (selfId : Nat) (other : Nat ⊕ String) : State × Nat :=
  match other with
  | Sum.inl childId =>
    let s1 := modifyIdx (fun nd => { nd with children := nd.children ++ [childId] }) selfId s
    let s2 := modifyIdx (fun nd => { nd with parent := some selfId }) childId s1
    (s2, selfId)
  | Sum.inr txt =>
    let childId := s.length
    let s0 := s ++ [⟨NKind.tK txt, [], none⟩]
    let s1 := modifyIdx (fun nd => { nd with children := nd.children ++ [childId] }) selfId s0
    let s2 := modifyIdx (fun nd => { nd with parent := some selfId }) childId s1
    (s2, selfId)

/-- `_Node.__getattr__(self, name)`: for `'Environment'` allocate
`Environment(None)`, append it via `self += env` and return it; for
`'Command'` likewise with `Command(None)` (whose `__init__` stores
`arguments = None`, `options = None`, `add_newline = False`); any other
missing attribute name reaches `raise KeyError`. -/
def getattr_ (s : State) (selfId : Nat) (name : String) :
    Except PyErr (State × Nat) :=
  if name = "Environment" then
    let envId := s.length
    let s0 := s ++ [⟨NKind.environmentK none [], [], none⟩]
    Except.ok ((iadd s0 selfId (Sum.inl envId)).1, envId)
  else if name = "Command" then
    let cmdId := s.length
    let s0 := s ++ [⟨NKind.commandK none HArg.hNone none false, [], none⟩]
    Except.ok ((iadd s0 selfId (Sum.inl cmdId)).1, cmdId)
  else Except.error PyErr.keyError

/-- A tree-building step: one append (`parent += child`). -/
inductive Op where
  | app (parent : Nat) (child : Nat ⊕ String)

/-- Execute one append. -/
def applyOp (s : State) : Op → State
  | Op.app p c => (iadd s p c).1

/-- Execute a sequence of appends. -/
def runOps : State → List Op → State
  | s, [] => s
  | s, op :: rest => runOps (applyOp s op) rest

/-- The claimed tree invariant: every node appears in the child sequence
of at most one parent. -/
def TreeInvariant (s : State) : Prop :=
  ∀ i j1 j2, j1 < s.length → j2 < s.length →
    i ∈ childrenAt s j1 → i ∈ childrenAt s j2 → j1 = j2

/-- Child ids stay inside the heap (holds for all states Python can
actually reach, since appended children are real objects). -/
def Scoped (s : State) : Prop :=
  ∀ j i, j < s.length → i ∈ childrenAt s j → i < s.length

/-- Node `c` is currently nobody's child. -/
def NoParent (s : State) (c : Nat) : Prop :=
  ∀ j, j < s.length → c ∉ childrenAt s j

/-- Every node-append in the sequence appends an existing node that is
nobody's child at that moment (string-appends always allocate a fresh
`T`). -/
def FreshOps : State → List Op → Prop
  | _, [] => True
  | s, Op.app p c :: rest =>
    (match c with
     | Sum.inl i => i < s.length ∧ NoParent s i
     | Sum.inr _ => True) ∧ FreshOps (applyOp s (Op.app p c)) rest

/-! ### Concrete example states -/

/-- Three freshly constructed nodes: two `Content()` containers and one
`T('x')` leaf, none yet appended anywhere. -/
def exA : State :=
  [⟨NKind.contentK, [], none⟩, ⟨NKind.contentK, [], none⟩, ⟨NKind.tK "x", [], none⟩]

/-- The state after `a += c; b += c` (node 2 appended to node 0, then to
node 1): node 2 stays in node 0's child list while its parent pointer moves
to node 1. -/
def exShared : State := (iadd (iadd exA 0 (Sum.inl 2)).1 1 (Sum.inl 2)).1

/-! ### Basic facts about the heap primitives -/

theorem length_modifyIdx (f : NodeData → NodeData) (n : Nat) (s : State) :
    (modifyIdx f n s).length = s.length := by
  induction s generalizing n with
  | nil => cases n <;> rfl
  | cons x xs ih => cases n with
    | zero => rfl
    | succ k => simpa [modifyIdx] using ih k

theorem getElem?_modifyIdx_self (f : NodeData → NodeData) (n : Nat) (s : State) :
    (modifyIdx f n s)[n]? = s[n]?.map f := by
  induction s generalizing n with
  | nil => cases n <;> rfl
  | cons x xs ih => cases n with
    | zero => simp [modifyIdx]
    | succ k => simpa [modifyIdx] using ih k

theorem getElem?_modifyIdx_ne (f : NodeData → NodeData) {n m : Nat} (s : State)
    (h : m ≠ n) : (modifyIdx f n s)[m]? = s[m]? := by
  induction s generalizing n m with
  | nil => cases n <;> rfl
  | cons x xs ih =>
    cases n with
    | zero => cases m with
      | zero => exact absurd rfl h
      | succ j => simp [modifyIdx]
    | succ k => cases m with
      | zero => simp [modifyIdx]
      | succ j => simpa [modifyIdx] using ih (fun hj => h (by omega))

theorem modifyIdx_of_ge (f : NodeData → NodeData) {n : Nat} {s : State}
    (h : s.length ≤ n) : modifyIdx f n s = s := by
  induction s generalizing n with
  | nil => cases n <;> rfl
  | cons x xs ih =>
    cases n with
    | zero => exact absurd h (by simp)
    | succ k => simpa [modifyIdx] using ih (by simpa using h)

theorem childrenAt_of_ge {s : State} {q : Nat} (h : s.length ≤ q) :
    childrenAt s q = [] := by
  simp [childrenAt, List.getElem?_eq_none h]

/-- Setting the `parent` field of any node leaves every child list
unchanged. -/
theorem childrenAt_modify_parent (x : Option Nat) (n q : Nat) (s : State) :
    childrenAt (modifyIdx (fun nd => { nd with parent := x }) n s) q
      = childrenAt s q := by
  by_cases h : q = n
  · subst h
    simp only [childrenAt, getElem?_modifyIdx_self]
    cases s[q]? <;> rfl
  · simp [childrenAt, getElem?_modifyIdx_ne _ _ h]

/-- Setting the `parent` field of any node leaves every kind unchanged. -/
theorem kindAt_modify_parent (x : Option Nat) (n q : Nat) (s : State) :
    kindAt (modifyIdx (fun nd => { nd with parent := x }) n s) q = kindAt s q := by
  by_cases h : q = n
  · subst h
    simp only [kindAt, getElem?_modifyIdx_self]
    cases s[q]? <;> rfl
  · simp [kindAt, getElem?_modifyIdx_ne _ _ h]

/-- Appending a child id to node `p` updates exactly `p`'s child list. -/
theorem childrenAt_modify_append_self {p : Nat} {s : State} (c : Nat)
    (hp : p < s.length) :
    childrenAt (modifyIdx (fun nd => { nd with children := nd.children ++ [c] }) p s) p
      = childrenAt s p ++ [c] := by
  simp [childrenAt, getElem?_modifyIdx_self, List.getElem?_eq_getElem hp]

theorem childrenAt_modify_append_ne {p q : Nat} (c : Nat) (s : State)
    (h : q ≠ p) :
    childrenAt (modifyIdx (fun nd => { nd with children := nd.children ++ [c] }) p s) q
      = childrenAt s q := by
  simp [childrenAt, getElem?_modifyIdx_ne _ _ h]

theorem childrenAt_append_singleton (s : State) (x : NodeData) (q : Nat) :
    childrenAt (s ++ [x]) q = if q = s.length then x.children else childrenAt s q := by
  by_cases h : q = s.length
  · subst h
    simp [childrenAt, List.getElem?_concat_length]
  · rcases Nat.lt_or_ge q s.length with hq | hq
    · simp [childrenAt, List.getElem?_append_left hq, h]
    · have hq' : s.length < q := lt_of_le_of_ne hq (fun hs => h hs.symm)
      have h1 : (s ++ [x]).length ≤ q := by simp; omega
      simp [childrenAt_of_ge h1, childrenAt_of_ge (le_of_lt hq'), h]

/-! ### Characterization of `__iadd__` on the heap -/

theorem iadd_snd (s : State) (p : Nat) (c : Nat ⊕ String) : (iadd s p c).2 = p := by
  cases c <;> rfl

theorem length_iadd_inl (s : State) (p i : Nat) :
    ((iadd s p (Sum.inl i)).1).length = s.length := by
  simp [iadd, length_modifyIdx]

theorem length_iadd_inr (s : State) (p : Nat) (t : String) :
    ((iadd s p (Sum.inr t)).1).length = s.length + 1 := by
  simp [iadd, length_modifyIdx]

theorem parentAt_modify_append (c : Nat) (n q : Nat) (s : State) :
    parentAt (modifyIdx (fun nd => { nd with children := nd.children ++ [c] }) n s) q
      = parentAt s q := by
  by_cases h : q = n
  · subst h
    simp only [parentAt, getElem?_modifyIdx_self]
    cases s[q]? <;> rfl
  · simp [parentAt, getElem?_modifyIdx_ne _ _ h]

theorem kindAt_modify_append (c : Nat) (n q : Nat) (s : State) :
    kindAt (modifyIdx (fun nd => { nd with children := nd.children ++ [c] }) n s) q
      = kindAt s q := by
  by_cases h : q = n
  · subst h
    simp only [kindAt, getElem?_modifyIdx_self]
    cases s[q]? <;> rfl
  · simp [kindAt, getElem?_modifyIdx_ne _ _ h]

theorem parentAt_modify_parent_self {c : Nat} {s : State} (x : Option Nat)
    (hc : c < s.length) :
    parentAt (modifyIdx (fun nd => { nd with parent := x }) c s) c = x := by
  simp [parentAt, getElem?_modifyIdx_self, List.getElem?_eq_getElem hc]

/-- Appending a `T` wrapper (whose child list is empty) to the heap changes
no child list: the new id's list is `[]`, which is also what a dangling id
reports. -/
theorem childrenAt_append_T (s : State) (x : NodeData) (hx : x.children = [])
    (q : Nat) : childrenAt (s ++ [x]) q = childrenAt s q := by
  rw [childrenAt_append_singleton]
  by_cases h : q = s.length
  · subst h
    simp [hx, childrenAt_of_ge (Nat.le_refl s.length)]
  · simp [h]

theorem childrenAt_iadd_self {s : State} {p : Nat} (c : Nat ⊕ String)
    (hp : p < s.length) :
    childrenAt (iadd s p c).1 p = childrenAt s p ++ [resolvedChild s c] := by
  cases c with
  | inl i =>
    show childrenAt (modifyIdx _ i (modifyIdx _ p s)) p = _
    rw [childrenAt_modify_parent, childrenAt_modify_append_self _ hp]
    rfl
  | inr t =>
    show childrenAt (modifyIdx _ s.length (modifyIdx _ p (s ++ [(⟨NKind.tK t, [], none⟩ : NodeData)]))) p = _
    have hp' : p < (s ++ [(⟨NKind.tK t, [], none⟩ : NodeData)]).length := by simp; omega
    rw [childrenAt_modify_parent, childrenAt_modify_append_self _ hp',
      childrenAt_append_T _ _ rfl]
    rfl

theorem childrenAt_iadd_ne {s : State} {p : Nat} (c : Nat ⊕ String) {q : Nat}
    (h : q ≠ p) :
    childrenAt (iadd s p c).1 q = childrenAt s q := by
  cases c with
  | inl i =>
    show childrenAt (modifyIdx _ i (modifyIdx _ p s)) q = _
    rw [childrenAt_modify_parent, childrenAt_modify_append_ne _ _ h]
  | inr t =>
    show childrenAt (modifyIdx _ s.length (modifyIdx _ p (s ++ [(⟨NKind.tK t, [], none⟩ : NodeData)]))) q = _
    rw [childrenAt_modify_parent, childrenAt_modify_append_ne _ _ h,
      childrenAt_append_T _ _ rfl]

theorem parentAt_iadd_inl {s : State} {p i : Nat} (hi : i < s.length) :
    parentAt (iadd s p (Sum.inl i)).1 i = some p := by
  show parentAt (modifyIdx _ i (modifyIdx _ p s)) i = _
  exact parentAt_modify_parent_self _ (by rw [length_modifyIdx]; exact hi)

theorem parentAt_iadd_inr (s : State) (p : Nat) (t : String) :
    parentAt (iadd s p (Sum.inr t)).1 s.length = some p := by
  show parentAt (modifyIdx _ s.length (modifyIdx _ p (s ++ [(⟨NKind.tK t, [], none⟩ : NodeData)]))) s.length = _
  exact parentAt_modify_parent_self _ (by simp [length_modifyIdx])

theorem kindAt_iadd_inr_new (s : State) (p : Nat) (t : String) :
    kindAt (iadd s p (Sum.inr t)).1 s.length = some (NKind.tK t) := by
  show kindAt (modifyIdx _ s.length (modifyIdx _ p (s ++ [(⟨NKind.tK t, [], none⟩ : NodeData)]))) s.length = _
  rw [kindAt_modify_parent, kindAt_modify_append]
  simp [kindAt, List.getElem?_concat_length]

/-! ### Preservation of the tree invariant under fresh appends -/

/-- For a string append (which allocates the `T` wrapper at the fresh id
`s.length`), the parent's child list gains the fresh id; this holds for
every parent id of the grown heap (`p < s.length + 1`). -/
theorem childrenAt_iadd_inr_self {s : State} {p : Nat} (t : String)
    (hp : p < s.length + 1) :
    childrenAt (iadd s p (Sum.inr t)).1 p = childrenAt s p ++ [s.length] := by
  show childrenAt (modifyIdx _ s.length (modifyIdx _ p (s ++ [(⟨NKind.tK t, [], none⟩ : NodeData)]))) p = _
  have hp' : p < (s ++ [(⟨NKind.tK t, [], none⟩ : NodeData)]).length := by simp; omega
  rw [childrenAt_modify_parent, childrenAt_modify_append_self _ hp',
    childrenAt_append_T _ _ rfl]

/-- A string append whose parent id is dangling even in the grown heap
changes no child list. -/
theorem childrenAt_iadd_inr_out {s : State} {p : Nat} (t : String)
    (hp : s.length + 1 ≤ p) (q : Nat) :
    childrenAt (iadd s p (Sum.inr t)).1 q = childrenAt s q := by
  show childrenAt (modifyIdx _ s.length (modifyIdx _ p (s ++ [(⟨NKind.tK t, [], none⟩ : NodeData)]))) q = _
  rw [childrenAt_modify_parent, modifyIdx_of_ge _ (by simp; omega),
    childrenAt_append_T _ _ rfl]

/-- Appending an existing node that is currently nobody's child preserves
the tree invariant and scopedness. -/
theorem inv_iadd_inl {s : State} {p i : Nat} (hInv : TreeInvariant s)
    (hSc : Scoped s) (hi : i < s.length) (hnp : NoParent s i) :
    TreeInvariant (iadd s p (Sum.inl i)).1 ∧ Scoped (iadd s p (Sum.inl i)).1 := by
  by_cases hp : p < s.length
  · have hchp : childrenAt (iadd s p (Sum.inl i)).1 p = childrenAt s p ++ [i] :=
      childrenAt_iadd_self _ hp
    have hchq : ∀ q, q ≠ p → childrenAt (iadd s p (Sum.inl i)).1 q = childrenAt s q :=
      fun q hq => childrenAt_iadd_ne _ hq
    constructor
    · intro x j1 j2 h1 h2 m1 m2
      rw [length_iadd_inl] at h1 h2
      by_cases e1 : j1 = p <;> by_cases e2 : j2 = p
      · rw [e1, e2]
      · exfalso
        rw [e1, hchp] at m1
        rw [hchq _ e2] at m2
        rcases List.mem_append.mp m1 with m1' | m1'
        · exact e2 (hInv x j2 p h2 hp m2 m1')
        · have hx : x = i := by simpa using m1'
          exact hnp j2 h2 (hx ▸ m2)
      · exfalso
        rw [e2, hchp] at m2
        rw [hchq _ e1] at m1
        rcases List.mem_append.mp m2 with m2' | m2'
        · exact e1 (hInv x j1 p h1 hp m1 m2')
        · have hx : x = i := by simpa using m2'
          exact hnp j1 h1 (hx ▸ m1)
      · rw [hchq _ e1] at m1
        rw [hchq _ e2] at m2
        exact hInv x j1 j2 h1 h2 m1 m2
    · intro j x hj hx
      rw [length_iadd_inl] at hj ⊢
      by_cases e : j = p
      · rw [e, hchp] at hx
        rcases List.mem_append.mp hx with h' | h'
        · exact hSc _ _ hp h'
        · have hx' : x = i := by simpa using h'
          exact hx' ▸ hi
      · rw [hchq _ e] at hx
        exact hSc _ _ hj hx
  · have hch : ∀ q, childrenAt (iadd s p (Sum.inl i)).1 q = childrenAt s q := by
      intro q
      show childrenAt (modifyIdx _ i (modifyIdx _ p s)) q = _
      rw [childrenAt_modify_parent, modifyIdx_of_ge _ (Nat.le_of_not_lt hp)]
    constructor
    · intro x j1 j2 h1 h2 m1 m2
      rw [length_iadd_inl] at h1 h2
      rw [hch] at m1 m2
      exact hInv x j1 j2 h1 h2 m1 m2
    · intro j x hj hx
      rw [length_iadd_inl] at hj ⊢
      rw [hch] at hx
      exact hSc _ _ hj hx

/-- Appending a string (always a fresh `T` node) preserves the tree
invariant and scopedness. -/
theorem inv_iadd_inr {s : State} {p : Nat} (t : String) (hInv : TreeInvariant s)
    (hSc : Scoped s) :
    TreeInvariant (iadd s p (Sum.inr t)).1 ∧ Scoped (iadd s p (Sum.inr t)).1 := by
  have hlen : ((iadd s p (Sum.inr t)).1).length = s.length + 1 := length_iadd_inr s p t
  have hempty : childrenAt s s.length = [] := childrenAt_of_ge (Nat.le_refl _)
  by_cases hp : p < s.length + 1
  · have hchp : childrenAt (iadd s p (Sum.inr t)).1 p = childrenAt s p ++ [s.length] :=
      childrenAt_iadd_inr_self t hp
    have hchq : ∀ q, q ≠ p → childrenAt (iadd s p (Sum.inr t)).1 q = childrenAt s q :=
      fun q hq => childrenAt_iadd_ne _ hq
    have hmem : ∀ {x j}, j < s.length + 1 → x ∈ childrenAt s j → j < s.length ∧ x < s.length := by
      intro x j hj hx
      rcases Nat.lt_or_ge j s.length with hj' | hj'
      · exact ⟨hj', hSc _ _ hj' hx⟩
      · rw [childrenAt_of_ge hj'] at hx
        exact absurd hx (List.not_mem_nil x)
    constructor
    · intro x j1 j2 h1 h2 m1 m2
      rw [hlen] at h1 h2
      by_cases e1 : j1 = p <;> by_cases e2 : j2 = p
      · rw [e1, e2]
      · exfalso
        rw [e1, hchp] at m1
        rw [hchq _ e2] at m2
        obtain ⟨hj2, hx2⟩ := hmem h2 m2
        rcases List.mem_append.mp m1 with m1' | m1'
        · obtain ⟨hjp, _⟩ := hmem hp m1'
          exact e2 (hInv x j2 p hj2 hjp m2 m1')
        · have hx : x = s.length := by simpa using m1'
          omega
      · exfalso
        rw [e2, hchp] at m2
        rw [hchq _ e1] at m1
        obtain ⟨hj1, hx1⟩ := hmem h1 m1
        rcases List.mem_append.mp m2 with m2' | m2'
        · obtain ⟨hjp, _⟩ := hmem hp m2'
          exact e1 (hInv x j1 p hj1 hjp m1 m2')
        · have hx : x = s.length := by simpa using m2'
          omega
      · rw [hchq _ e1] at m1
        rw [hchq _ e2] at m2
        obtain ⟨hj1, _⟩ := hmem h1 m1
        obtain ⟨hj2, _⟩ := hmem h2 m2
        exact hInv x j1 j2 hj1 hj2 m1 m2
    · intro j x hj hx
      rw [hlen] at hj ⊢
      by_cases e : j = p
      · rw [e, hchp] at hx
        rcases List.mem_append.mp hx with h' | h'
        · obtain ⟨_, hx'⟩ := hmem hp h'
          omega
        · have hx' : x = s.length := by simpa using h'
          omega
      · rw [hchq _ e] at hx
        obtain ⟨_, hx'⟩ := hmem (by omega) hx
        omega
  · have hch : ∀ q, childrenAt (iadd s p (Sum.inr t)).1 q = childrenAt s q :=
      childrenAt_iadd_inr_out t (Nat.le_of_not_lt hp)
    have hmem : ∀ {x j}, j < s.length + 1 → x ∈ childrenAt s j → j < s.length ∧ x < s.length := by
      intro x j hj hx
      rcases Nat.lt_or_ge j s.length with hj' | hj'
      · exact ⟨hj', hSc _ _ hj' hx⟩
      · rw [childrenAt_of_ge hj'] at hx
        exact absurd hx (List.not_mem_nil x)
    constructor
    · intro x j1 j2 h1 h2 m1 m2
      rw [hlen] at h1 h2
      rw [hch] at m1 m2
      obtain ⟨hj1, _⟩ := hmem h1 m1
      obtain ⟨hj2, _⟩ := hmem h2 m2
      exact hInv x j1 j2 hj1 hj2 m1 m2
    · intro j x hj hx
      rw [hlen] at hj ⊢
      rw [hch] at hx
      obtain ⟨_, hx'⟩ := hmem hj hx
      omega

/-- Running a sequence of fresh appends preserves the tree invariant and
scopedness. -/
theorem inv_runOps {s : State} {ops : List Op} (hInv : TreeInvariant s)
    (hSc : Scoped s) (hF : FreshOps s ops) :
    TreeInvariant (runOps s ops) ∧ Scoped (runOps s ops) := by
  induction ops generalizing s with
  | nil => exact ⟨hInv, hSc⟩
  | cons op rest ih =>
    obtain ⟨p, c⟩ := op
    obtain ⟨hc, hF'⟩ := hF
    cases c with
    | inl i =>
      obtain ⟨hInv', hSc'⟩ := inv_iadd_inl hInv hSc hc.1 hc.2
      exact ih hInv' hSc' hF'
    | inr t =>
      obtain ⟨hInv', hSc'⟩ := inv_iadd_inr t hInv hSc
      exact ih hInv' hSc' hF'

/-! ### Rendering does not mutate the tree -/

mutual

theorem renderSt_snd : ∀ (n : Node) (sib : Option Node), (renderSt n sib).2 = n
  | Node.Document cs, sib => by
    simp [renderSt, renderChildrenSt_snd cs]
  | Node.Content cs, sib => by
    simp [renderSt, renderChildrenSt_snd cs]
  | Node.T txt cs, sib => by simp [renderSt]
  | Node.Text txt cs, sib => by simp [renderSt]
  | Node.LineBreak cs, sib => by simp [renderSt]
  | Node.Comment txt cs, sib => by simp [renderSt]
  | Node.DQuote txt cs, sib => by simp [renderSt]
  | Node.Group name cs, sib => by
    simp [renderSt, renderChildrenSt_snd cs]
  | Node.Environment name rest cs, sib => by
    simp [renderSt, renderChildrenSt_snd cs]
  | Node.Command name arg opts nl cs, sib => by
    have ha := renderArgTwo_snd arg
    have hc := renderChildrenSt_snd cs
    simp only [renderSt]
    cases hae : (renderArgTwo arg).1 with
    | none => simp [hae, ha]
    | some two => simp [hae, ha, hc]
  | Node.Switch name cs, sib => by
    simp [renderSt, renderChildrenSt_snd cs]

theorem renderArgTwo_snd : ∀ (a : Arg), (renderArgTwo a).2 = a
  | Arg.argNone => by simp [renderArgTwo]
  | Arg.argStr s => by simp [renderArgTwo]
  | Arg.argList xs => by simp [renderArgTwo]
  | Arg.argNode n => by
    simp [renderArgTwo, renderSt_snd n none]

theorem renderChildrenSt_snd : ∀ (cs : List Node), (renderChildrenSt cs).2 = cs
  | [] => by simp [renderChildrenSt]
  | c :: rest => by
    have h1 := renderSt_snd c rest.head?
    have h2 := renderChildrenSt_snd rest
    simp only [renderChildrenSt]
    cases he : (renderSt c rest.head?).1 with
    | none => simp [he, h1]
    | some s1 => simp [he, h1, h2]

end

theorem parentAt_modify_parent_ne (x : Option Nat) {n q : Nat} (s : State)
    (h : q ≠ n) :
    parentAt (modifyIdx (fun nd => { nd with parent := x }) n s) q = parentAt s q := by
  simp [parentAt, getElem?_modifyIdx_ne _ _ h]

theorem parentAt_iadd_inl_ne {s : State} {p i q : Nat} (h : q ≠ i) :
    parentAt (iadd s p (Sum.inl i)).1 q = parentAt s q := by
  show parentAt (modifyIdx _ i (modifyIdx _ p s)) q = _
  rw [parentAt_modify_parent_ne _ _ h, parentAt_modify_append]

/-! ## Claims -/

/-- C1 counterexample: the claim says a Command followed by a literal-text
sibling of either class (`Text` or `T`) renders with a trailing empty
`\x7b\x7d`.  In the code, `insert_space` tests `isinstance(sib, T)` and
`Text` is not a subclass of `T`: with a `Text('x')` sibling,
`Command('today')` renders without the empty block (the whole `Content`
renders as backslash-today-x, not the claimed backslash-today-braces-x),
while with a `T('x')` sibling the empty block appears. -/
theorem command_text_sibling_counterexample :
    render (Node.Content [Node.Command (some "today") Arg.argNone none false [],
        Node.Text "x" []]) = some "\\todayx"
    ∧ render (Node.Content [Node.Command (some "today") Arg.argNone none false [],
        Node.T "x" []]) = some "\\today\x7b\x7dx"
    ∧ ("\\todayx" : String) ≠ "\\today\x7b\x7dx" :=
  ⟨rfl, rfl, by decide⟩

/-- C1 (corrected): rendering a Command in sibling context `sib` (the child
that follows it in its parent, `none` when it is the last child or has no
parent) produces name, options block, argument block, then an empty
`\x7b\x7d` exactly when `insert_space` holds, then the optional newline and
the command's own children — and `insert_space` holds iff the next sibling
exists and is a `T` node (not a `Text` node). -/
theorem command_empty_group_iff_T_sibling (name : Option String) (arg : Arg)
    (opts : Option (List String)) (nl : Bool) (cs : List Node) (sib : Option Node)
    (two m : String) (ha : (renderArgTwo arg).1 = some two)
    (hc : (renderChildrenSt cs).1 = some m) :
    (renderSt (Node.Command name arg opts nl cs) sib).1
      = some ("\\" ++ pyStrOpt name ++ optBlock opts ++ two
          ++ (if insert_space sib then "\x7b\x7d" else "")
          ++ (if nl then "\n" else "") ++ m)
    ∧ (insert_space sib = true ↔ ∃ t u, sib = some (Node.T t u)) := by
  constructor
  · simp [renderSt, ha, hc, commandStart]
  · cases sib with
    | none => simp [insert_space]
    | some s => cases s <;> simp [insert_space]

/-- Witness for C1's theorem at a concrete input: `Command('today')` with a
`T('x')` next sibling renders with the trailing empty group. -/
theorem command_empty_group_iff_T_sibling_witness :
    (renderSt (Node.Command (some "today") Arg.argNone none false [])
        (some (Node.T "x" []))).1
      = some ("\\" ++ pyStrOpt (some "today") ++ optBlock none ++ ""
          ++ (if insert_space (some (Node.T "x" [])) then "\x7b\x7d" else "")
          ++ (if false then "\n" else "") ++ "")
    ∧ (insert_space (some (Node.T "x" [])) = true
        ↔ ∃ t u, some (Node.T "x" []) = some (Node.T t u)) :=
  command_empty_group_iff_T_sibling (some "today") Arg.argNone none false []
    (some (Node.T "x" [])) "" "" (by simp [renderArgTwo]) (by simp [renderChildrenSt])

/-- C2 counterexample: after `a += c; b += c` (heap `exShared`), node 2 is
listed in the child sequences of both node 0 and node 1 (its parent pointer
points at node 1 only), so the claimed at-most-one-parent invariant fails:
`__iadd__` never removes the child from its previous parent. -/
theorem append_shared_child_counterexample :
    ¬ TreeInvariant exShared
    ∧ 2 ∈ childrenAt exShared 0
    ∧ 2 ∈ childrenAt exShared 1
    ∧ parentAt exShared 2 = some 1 :=
  ⟨fun h => absurd (h 2 0 1 (by decide) (by decide) (by decide) (by decide)) (by decide),
   by decide, by decide, by decide⟩

/-- C2 (corrected): starting from a state where every node is a child of at
most one parent and all child ids are in range, any sequence of appends in
which every appended node child is, at the moment of its append, an existing
node that is nobody's child (string appends always allocate a fresh `T`)
preserves the invariant that each node appears in the child sequence of at
most one parent.  Without that freshness condition the invariant fails, as
the counterexample shows. -/
theorem tree_invariant_fresh_appends (s : State) (ops : List Op)
    (hInv : TreeInvariant s) (hSc : Scoped s) (hF : FreshOps s ops) :
    TreeInvariant (runOps s ops) :=
  (inv_runOps hInv hSc hF).1

/-- Witness for C2's theorem: one string append on the empty heap. -/
theorem tree_invariant_fresh_appends_witness :
    TreeInvariant (runOps ([] : State) [Op.app 0 (Sum.inr "hi")]) :=
  tree_invariant_fresh_appends [] [Op.app 0 (Sum.inr "hi")]
    (by intro i j1 j2 h1 h2 m1 m2; simp at h1)
    (by intro j i hj hx; simp at hj)
    ⟨trivial, trivial⟩

/-- C3 (code bug): rendering is not total.  `Switch.__str__` formats with
a template whose final brace is unescaped, making CPython's `str.format`
raise a `ValueError` (Single brace encountered in format string); so
`str(Switch('em'))` raises for every Switch node (modelled as `none`). -/
theorem switch_render_error :
    render (Node.Switch "em" []) = none
    ∧ pyFormat ["em", ""] switchTemplate = none :=
  ⟨rfl, rfl⟩

/-- C4 (code bug): `Command('addcontentsline', ['toc','subsection','Preface'])`
renders each list element as its own brace block with no separator, but —
because `add_newline` defaults to `False` — produces **no** trailing
newline, contradicting the claim and the module's own doctest (whose
`<BLANKLINE>` after `print c7` requires `str(c7)` to end in a newline). -/
theorem addcontentsline_render_no_newline :
    render (Node.Command (some "addcontentsline")
        (Arg.argList ["toc", "subsection", "Preface"]) none false [])
      = some "\\addcontentsline\x7btoc\x7d\x7bsubsection\x7d\x7bPreface\x7d"
    ∧ ("\\addcontentsline\x7btoc\x7d\x7bsubsection\x7d\x7bPreface\x7d" : String)
      ≠ "\\addcontentsline\x7btoc\x7d\x7bsubsection\x7d\x7bPreface\x7d" ++ "\n" :=
  ⟨rfl, by decide⟩

/-- C5 counterexample: an anonymous `Group` wrapping `Text('x')` renders as
brace, newline, `x`, newline, brace, newline — not the claimed `\x7bx\x7d`:
both `start` and `end` append newlines, and the anonymous `end` emits an
**opening** brace `\x7b` (not `\x7d`). -/
theorem group_anonymous_render_counterexample :
    render (Node.Group none [Node.Text "x" []]) = some "\x7b\nx\n\x7b\n"
    ∧ ("\x7b\nx\n\x7b\n" : String) ≠ "\x7bx\x7d" :=
  ⟨rfl, by decide⟩

/-- C5 (corrected): a Group renders as `groupStart name ++ content ++
groupEnd name`, where for a (nonempty) name the prefix is `\begin` + name
+ newline and the suffix is newline + `\end` + name + newline, and for an
anonymous group the prefix is `\x7b` + newline and the suffix is newline +
`\x7b` + newline (the code emits an opening brace in the suffix). -/
theorem group_render_actual (name : String) (hn : name ≠ "") (cs : List Node)
    (m : String) (hc : (renderChildrenSt cs).1 = some m) (sib : Option Node)
    (nm : Option String) :
    (renderSt (Node.Group nm cs) sib).1 = some (groupStart nm ++ m ++ groupEnd nm)
    ∧ groupStart (some name) = "\\begin" ++ name ++ "\n"
    ∧ groupEnd (some name) = "\n" ++ ("\\end" ++ name) ++ "\n"
    ∧ groupStart none = "\x7b" ++ "\n"
    ∧ groupEnd none = "\n" ++ "\x7b" ++ "\n" := by
  have hne : name.isEmpty = false := by
    cases h : name.isEmpty with
    | true => exact absurd ((String.isEmpty_iff name).mp h) hn
    | false => rfl
  have ht : optTruthy (some name) = true := by
    simp [optTruthy, hne]
  refine ⟨by simp [renderSt, hc], ?_, ?_, ?_, ?_⟩
  · simp [groupStart, ht]
  · simp [groupEnd, ht]
  · simp [groupStart, optTruthy]
  · simp [groupEnd, optTruthy]

/-- Witness for C5's theorem at concrete inputs. -/
theorem group_render_actual_witness :
    (renderSt (Node.Group (some "abc") [Node.Text "x" []]) none).1
      = some (groupStart (some "abc") ++ "x" ++ groupEnd (some "abc"))
    ∧ groupStart (some "abc") = "\\begin" ++ "abc" ++ "\n"
    ∧ groupEnd (some "abc") = "\n" ++ ("\\end" ++ "abc") ++ "\n"
    ∧ groupStart none = "\x7b" ++ "\n"
    ∧ groupEnd none = "\n" ++ "\x7b" ++ "\n" :=
  group_render_actual "abc" (by decide) [Node.Text "x" []] "x"
    (by simp [renderChildrenSt, renderSt]) none (some "abc")

/-- C6 (confirmed): `__iadd__` appends the (string-wrapped) child at the
end of the parent's child sequence, leaves every other child list
untouched, sets the child's parent pointer to the parent, and wraps a plain
string in a fresh `T` leaf.  The operation is total (it returns a state and
the parent for every input). -/
theorem iadd_append_contract (s : State) (p : Nat) (c : Nat ⊕ String)
    (hp : p < s.length) (hc : ∀ i, c = Sum.inl i → i < s.length) :
    (iadd s p c).2 = p
    ∧ childrenAt (iadd s p c).1 p = childrenAt s p ++ [resolvedChild s c]
    ∧ parentAt (iadd s p c).1 (resolvedChild s c) = some p
    ∧ (∀ t, c = Sum.inr t → kindAt (iadd s p c).1 (resolvedChild s c) = some (NKind.tK t))
    ∧ (∀ q, q ≠ p → childrenAt (iadd s p c).1 q = childrenAt s q) := by
  refine ⟨iadd_snd s p c, childrenAt_iadd_self c hp, ?_, ?_,
    fun q hq => childrenAt_iadd_ne c hq⟩
  · cases c with
    | inl i => exact parentAt_iadd_inl (hc i rfl)
    | inr t => exact parentAt_iadd_inr s p t
  · intro t ht
    cases c with
    | inl i => exact absurd ht (by simp)
    | inr u =>
      have hu : u = t := by injection ht
      subst hu
      exact kindAt_iadd_inr_new s p u

/-- Witness for C6's theorem: appending the string `"hi"` to node 0 of
`exA`. -/
theorem iadd_append_contract_witness :
    (iadd exA 0 (Sum.inr "hi")).2 = 0
    ∧ childrenAt (iadd exA 0 (Sum.inr "hi")).1 0
      = childrenAt exA 0 ++ [resolvedChild exA (Sum.inr "hi")]
    ∧ parentAt (iadd exA 0 (Sum.inr "hi")).1 (resolvedChild exA (Sum.inr "hi")) = some 0
    ∧ (∀ t, (Sum.inr "hi" : Nat ⊕ String) = Sum.inr t →
        kindAt (iadd exA 0 (Sum.inr "hi")).1 (resolvedChild exA (Sum.inr "hi"))
          = some (NKind.tK t))
    ∧ (∀ q, q ≠ 0 → childrenAt (iadd exA 0 (Sum.inr "hi")).1 q = childrenAt exA q) :=
  iadd_append_contract exA 0 (Sum.inr "hi") (by decide)
    (by intro i hi; exact absurd hi (by simp))

/-- C7 (confirmed): an Environment renders with prefix `\begin\x7bname\x7d`
followed by one `\x7barg\x7d` block per extra construction argument and a
newline, and suffix newline + `\end\x7bname\x7d` + newline; in particular
the `document`/`Hello World!` example renders exactly as claimed. -/
theorem environment_render_spec (name : String) (rest : List String)
    (cs : List Node) (sib : Option Node) (m : String)
    (hc : (renderChildrenSt cs).1 = some m) :
    (renderSt (Node.Environment (some name) rest cs) sib).1
      = some ("\\begin\x7b" ++ name ++ "\x7d"
          ++ String.join (rest.map (fun a => "\x7b" ++ a ++ "\x7d")) ++ "\n"
          ++ m ++ "\n\\end\x7b" ++ name ++ "\x7d\n")
    ∧ render (Node.Environment (some "document") [] [Node.Text "Hello World!" []])
      = some "\\begin\x7bdocument\x7d\nHello World!\n\\end\x7bdocument\x7d\n" := by
  constructor
  · simp [renderSt, hc, envStart, envEnd, pyStrOpt, String.append_assoc]
  · rfl

/-- Witness for C7's theorem: an environment with one extra argument and a
text child. -/
theorem environment_render_spec_witness :
    (renderSt (Node.Environment (some "tabular") ["cc"] [Node.Text "t" []]) none).1
      = some ("\\begin\x7b" ++ "tabular" ++ "\x7d"
          ++ String.join (["cc"].map (fun a => "\x7b" ++ a ++ "\x7d")) ++ "\n"
          ++ "t" ++ "\n\\end\x7b" ++ "tabular" ++ "\x7d\n")
    ∧ render (Node.Environment (some "document") [] [Node.Text "Hello World!" []])
      = some "\\begin\x7bdocument\x7d\nHello World!\n\\end\x7bdocument\x7d\n" :=
  environment_render_spec "tabular" ["cc"] [Node.Text "t" []] none "t"
    (by simp [renderChildrenSt, renderSt])

/-- C8 (confirmed): rendering mutates nothing — the tree returned alongside
the string is the input tree — and therefore a second render of the
resulting tree yields the same string. -/
theorem render_pure_and_idempotent (n : Node) (sib : Option Node) :
    (renderSt n sib).2 = n
    ∧ (renderSt (renderSt n sib).2 sib).1 = (renderSt n sib).1 := by
  have h := renderSt_snd n sib
  exact ⟨h, by rw [h]⟩

/-- C9 (confirmed): `__getattr__` with any name other than
`'Environment'`/`'Command'` raises `KeyError`, which is of `LookupError`
kind (KeyError is a CPython subclass of LookupError), synchronously as the
result of the lookup. -/
theorem getattr_unknown_name_lookup_error (s : State) (i : Nat) (name : String)
    (h1 : name ≠ "Environment") (h2 : name ≠ "Command") :
    getattr_ s i name = Except.error PyErr.keyError
    ∧ PyErr.keyError.isLookupError = true := by
  refine ⟨?_, rfl⟩
  simp [getattr_, h1, h2]

/-- Witness for C9's theorem at the unknown accessor name `"Foo"`. -/
theorem getattr_unknown_name_lookup_error_witness :
    getattr_ ([] : State) 0 "Foo" = Except.error PyErr.keyError
    ∧ PyErr.keyError.isLookupError = true :=
  getattr_unknown_name_lookup_error [] 0 "Foo" (by decide) (by decide)

/-- C10 (confirmed): `__add__` has the same body as `__iadd__`: it mutates
its left operand (appending the child, setting the child's parent) and
returns the left operand itself, so `a + b + c` appends both `b` and `c`
as siblings under `a`. -/
theorem add_returns_mutated_self :
    (∀ (s : State) (i : Nat) (c : Nat ⊕ String), add s i c = iadd s i c)
    ∧ (∀ (s : State) (i : Nat) (c : Nat ⊕ String), (add s i c).2 = i)
    ∧ (∀ (s : State) (a b c : Nat), a < s.length → b < s.length → c < s.length →
        childrenAt ((add (add s a (Sum.inl b)).1 (add s a (Sum.inl b)).2 (Sum.inl c)).1) a
          = childrenAt s a ++ [b, c]
        ∧ parentAt ((add (add s a (Sum.inl b)).1 (add s a (Sum.inl b)).2 (Sum.inl c)).1) b
          = some a
        ∧ parentAt ((add (add s a (Sum.inl b)).1 (add s a (Sum.inl b)).2 (Sum.inl c)).1) c
          = some a) := by
  have e : ∀ (s : State) (i : Nat) (c : Nat ⊕ String), add s i c = iadd s i c := by
    intro s i c
    cases c <;> rfl
  refine ⟨e, fun s i c => by rw [e]; exact iadd_snd s i c, ?_⟩
  intro s a b c ha hb hc
  rw [e, e, iadd_snd]
  have ha1 : a < ((iadd s a (Sum.inl b)).1).length := by
    rw [length_iadd_inl]; exact ha
  have hc1 : c < ((iadd s a (Sum.inl b)).1).length := by
    rw [length_iadd_inl]; exact hc
  refine ⟨?_, ?_, parentAt_iadd_inl hc1⟩
  · rw [childrenAt_iadd_self (Sum.inl c) ha1, childrenAt_iadd_self (Sum.inl b) ha]
    simp [resolvedChild]
  · by_cases hbc : b = c
    · subst hbc
      exact parentAt_iadd_inl hc1
    · rw [parentAt_iadd_inl_ne hbc]
      exact parentAt_iadd_inl hb

/-- Witness for C10's theorem: two chained appends under node 0 of `exA`. -/
theorem add_returns_mutated_self_witness :
    add exA 0 (Sum.inl 1) = iadd exA 0 (Sum.inl 1)
    ∧ (add exA 0 (Sum.inl 1)).2 = 0
    ∧ childrenAt ((add (add exA 0 (Sum.inl 1)).1 (add exA 0 (Sum.inl 1)).2 (Sum.inl 2)).1) 0
      = childrenAt exA 0 ++ [1, 2]
    ∧ parentAt ((add (add exA 0 (Sum.inl 1)).1 (add exA 0 (Sum.inl 1)).2 (Sum.inl 2)).1) 1
      = some 0
    ∧ parentAt ((add (add exA 0 (Sum.inl 1)).1 (add exA 0 (Sum.inl 1)).2 (Sum.inl 2)).1) 2
      = some 0 := by
  have h := add_returns_mutated_self
  have h3 := h.2.2 exA 0 1 2 (by decide) (by decide) (by decide)
  exact ⟨h.1 exA 0 (Sum.inl 1), h.2.1 exA 0 (Sum.inl 1), h3.1, h3.2.1, h3.2.2⟩

end Nitrile
